import Mathlib

/-
Verification of the sequence-number manipulation core of the Terrapin-style
SSH demo (utils.py, attack_proxy.py, cli.py, web_app.py).

The Python code is shallowly embedded: packets become a Lean structure,
list transformations become Lean functions on lists, fallible loaders and
selectors return Except values.
-/

namespace Terrapin

/-- Direction of a packet, mirroring the Direction enum in utils.py
(values C->S and S->C). -/
inductive Direction where
  | clientToServer
  | serverToClient
deriving DecidableEq, Repr

/-- Parsing a direction string, mirroring the Direction(str) enum lookup in
load_packet_trace: only the two enum values succeed. -/
def Direction.ofString : String → Option Direction
  | "C->S" => some Direction.clientToServer
  | "S->C" => some Direction.serverToClient
  | _ => none

/-- The Packet dataclass of utils.py. -/
structure Packet where
  index : Nat
  direction : Direction
  payload_len : Int
  msg_type : String
  seq_no : Option Nat := none
  dropped : Bool := false
deriving DecidableEq, Repr

/-- Helper loop of compute_sequence_numbers (utils.py lines 134-157): carry
the two per-direction counters down the list, overwriting seq_no on a copy
of each packet and leaving every other field unchanged. -/
def computeSeqAux (seq_c2s seq_s2c : Nat) : List Packet → List Packet
  | [] => []
  | pkt :: rest =>
    if pkt.direction = Direction.clientToServer then
      { pkt with seq_no := some seq_c2s } :: computeSeqAux (seq_c2s + 1) seq_s2c rest
    else
      { pkt with seq_no := some seq_s2c } :: computeSeqAux seq_c2s (seq_s2c + 1) rest

/-- compute_sequence_numbers from utils.py: both counters start at 0. -/
def compute_sequence_numbers (packets : List Packet) : List Packet :=
  computeSeqAux 0 0 packets

/-- Number of packets of a given direction in a list. -/
def countDir (d : Direction) (l : List Packet) : Nat :=
  l.countP (fun p => p.direction == d)

theorem countDir_nil (d : Direction) : countDir d [] = 0 := rfl

theorem countDir_cons (d : Direction) (p : Packet) (l : List Packet) :
    countDir d (p :: l) = (if p.direction = d then 1 else 0) + countDir d l := by
  by_cases h : p.direction = d
  · simp [countDir, List.countP_cons, h, Nat.add_comm]
  · simp [countDir, List.countP_cons, h]

theorem countDir_append (d : Direction) (l₁ l₂ : List Packet) :
    countDir d (l₁ ++ l₂) = countDir d l₁ + countDir d l₂ :=
  List.countP_append _ _ _

theorem computeSeqAux_length (c s : Nat) (l : List Packet) :
    (computeSeqAux c s l).length = l.length := by
  induction l generalizing c s with
  | nil => rfl
  | cons p rest ih =>
    by_cases h : p.direction = Direction.clientToServer <;>
      simp [computeSeqAux, h, ih]

theorem compute_sequence_numbers_length (l : List Packet) :
    (compute_sequence_numbers l).length = l.length :=
  computeSeqAux_length 0 0 l

/-- Initial counter value associated with a direction, given the two starting
counters of the loop in compute_sequence_numbers. -/
def startFor (c s : Nat) (d : Direction) : Nat :=
  if d = Direction.clientToServer then c else s

/-- Number of packets strictly before position j that share direction d. -/
def rankBefore (l : List Packet) (j : Nat) (d : Direction) : Nat :=
  countDir d (l.take j)

/-- Pointwise characterization of the counter loop: the packet at position j
keeps all its fields except seq_no, which becomes the starting counter of its
own direction plus the number of earlier same-direction packets. -/
theorem computeSeqAux_getElem (l : List Packet) (c s j : Nat) (hj : j < l.length)
    (hj2 : j < (computeSeqAux c s l).length) :
    (computeSeqAux c s l)[j] =
      { l[j] with seq_no := some (startFor c s l[j].direction + rankBefore l j l[j].direction) } := by
  induction l generalizing c s j with
  | nil => exact absurd hj (Nat.not_lt_zero j)
  | cons p rest ih =>
    have hrb : ∀ (m : Nat) (hm : m < rest.length),
        rankBefore (p :: rest) (m + 1) (rest[m]).direction =
          (if p.direction = (rest[m]).direction then 1 else 0) +
            rankBefore rest m (rest[m]).direction := by
      intro m hm
      simp [rankBefore, List.take_succ_cons, countDir_cons]
    by_cases hd : p.direction = Direction.clientToServer
    · simp only [computeSeqAux, if_pos hd]
      cases j with
      | zero =>
        simp [startFor, hd, rankBefore, countDir]
      | succ m =>
        have hm : m < rest.length := Nat.lt_of_succ_lt_succ hj
        have hm2 : m < (computeSeqAux (c + 1) s rest).length := by
          rw [computeSeqAux_length]; exact hm
        simp only [List.getElem_cons_succ]
        rw [ih (c + 1) s m hm hm2, hrb m hm]
        by_cases hd2 : (rest[m]).direction = Direction.clientToServer
        · have hpp : p.direction = (rest[m]).direction := hd.trans hd2.symm
          simp [startFor, hd2, hpp]
          omega
        · have hpp : ¬ p.direction = (rest[m]).direction := fun h => hd2 (h ▸ hd)
          simp [startFor, hd2, hpp]
    · simp only [computeSeqAux, if_neg hd]
      cases j with
      | zero =>
        simp [startFor, hd, rankBefore, countDir]
      | succ m =>
        have hm : m < rest.length := Nat.lt_of_succ_lt_succ hj
        have hm2 : m < (computeSeqAux c (s + 1) rest).length := by
          rw [computeSeqAux_length]; exact hm
        simp only [List.getElem_cons_succ]
        rw [ih c (s + 1) m hm hm2, hrb m hm]
        by_cases hd2 : (rest[m]).direction = Direction.clientToServer
        · have hpp : ¬ p.direction = (rest[m]).direction := fun h => hd (h ▸ hd2)
          simp [startFor, hd2, hpp, hd]
        · have hpp : p.direction = (rest[m]).direction := by
            cases hdp : p.direction <;> cases hdr : (rest[m]).direction <;> simp_all
          simp [startFor, hd2, hpp]
          omega

theorem compute_sequence_numbers_getElem (l : List Packet) (j : Nat)
    (hj : j < l.length) (hj2 : j < (compute_sequence_numbers l).length) :
    (compute_sequence_numbers l)[j] =
      { l[j] with seq_no := some (rankBefore l j l[j].direction) } := by
  have := computeSeqAux_getElem l 0 0 j hj hj2
  simpa [compute_sequence_numbers, startFor] using this

/-- The assigner rewrites seq_no only: the list of directions is untouched. -/
theorem computeSeqAux_map_direction (c s : Nat) (l : List Packet) :
    (computeSeqAux c s l).map Packet.direction = l.map Packet.direction := by
  induction l generalizing c s with
  | nil => rfl
  | cons p rest ih =>
    by_cases hd : p.direction = Direction.clientToServer <;>
      simp [computeSeqAux, hd, ih]

theorem compute_sequence_numbers_map_direction (l : List Packet) :
    (compute_sequence_numbers l).map Packet.direction = l.map Packet.direction :=
  computeSeqAux_map_direction 0 0 l

theorem countDir_eq_countP_map (d : Direction) (l : List Packet) :
    countDir d l = (l.map Packet.direction).countP (fun x => x == d) := by
  rw [List.countP_map]; rfl

/-- countDir only reads the direction column. -/
theorem countDir_congr (d : Direction) {l₁ l₂ : List Packet}
    (h : l₁.map Packet.direction = l₂.map Packet.direction) :
    countDir d l₁ = countDir d l₂ := by
  rw [countDir_eq_countP_map, countDir_eq_countP_map, h]

/-- Per-direction view of the counter loop: filtering the output for one
direction and reading off the sequence numbers yields a contiguous run
starting at that direction's initial counter. -/
theorem computeSeqAux_filter_dir (d : Direction) (l : List Packet) (c s : Nat) :
    ((computeSeqAux c s l).filter (fun p => p.direction == d)).map Packet.seq_no =
      (List.range' (startFor c s d) (countDir d l)).map some := by
  induction l generalizing c s with
  | nil => simp [computeSeqAux, countDir]
  | cons p rest ih =>
    by_cases hpd : p.direction = d
    · have hcd : countDir d (p :: rest) = countDir d rest + 1 := by
        rw [countDir_cons, if_pos hpd]; omega
      by_cases hd : p.direction = Direction.clientToServer
      · have hdc : d = Direction.clientToServer := hpd ▸ hd
        simp only [computeSeqAux, if_pos hd, List.filter_cons, hcd, List.range'_succ]
        have : ((({ p with seq_no := some c } : Packet)).direction == d) = true := by
          simp [hpd]
        rw [if_pos this]
        simp only [List.map_cons, ih (c + 1) s]
        simp [startFor, hdc]
      · have hdc : ¬ d = Direction.clientToServer := fun h => hd (hpd ▸ h)
        simp only [computeSeqAux, if_neg hd, List.filter_cons, hcd, List.range'_succ]
        have : ((({ p with seq_no := some s } : Packet)).direction == d) = true := by
          simp [hpd]
        rw [if_pos this]
        simp only [List.map_cons, ih c (s + 1)]
        simp [startFor, hdc]
    · have hcd : countDir d (p :: rest) = countDir d rest := by
        rw [countDir_cons, if_neg hpd]; omega
      by_cases hd : p.direction = Direction.clientToServer
      · have hdc : ¬ d = Direction.clientToServer := fun h => hpd (hd.trans h.symm)
        simp only [computeSeqAux, if_pos hd, List.filter_cons, hcd]
        have : ((({ p with seq_no := some c } : Packet)).direction == d) = false := by
          simp [hpd]
        rw [if_neg (by simp [this])]
        rw [ih (c + 1) s]
        simp [startFor, hdc]
      · have hdc : d = Direction.clientToServer := by
          cases hdd : d <;> cases hdp : p.direction <;> simp_all
        simp only [computeSeqAux, if_neg hd, List.filter_cons, hcd]
        have : ((({ p with seq_no := some s } : Packet)).direction == d) = false := by
          simp [hpd]
        rw [if_neg (by simp [this])]
        rw [ih c (s + 1)]
        simp [startFor, hdc]

/-- For each direction, the assigned sequence numbers read off in input order
are exactly 0, 1, ..., k-1 where k is the count of that direction. -/
theorem compute_sequence_numbers_filter_dir (d : Direction) (l : List Packet) :
    ((compute_sequence_numbers l).filter (fun p => p.direction == d)).map Packet.seq_no =
      (List.range (countDir d l)).map some := by
  rw [compute_sequence_numbers, computeSeqAux_filter_dir, List.range_eq_range']
  cases d <;> rfl

/-- apply_drop_indices from utils.py: copy every packet, setting dropped on
those whose index is in the drop set; everything else is unchanged. -/
def apply_drop_indices (packets : List Packet) (drop_indices : List Nat) : List Packet :=
  packets.map (fun pkt =>
    if pkt.index ∈ drop_indices then { pkt with dropped := true } else pkt)

/-- filter_visible_packets from utils.py: keep only non-dropped packets. -/
def filter_visible_packets (packets : List Packet) : List Packet :=
  packets.filter (fun pkt => !pkt.dropped)

/-- The before/after pipeline shared by run_demo (attack_proxy.py lines
114-121), cmd_explore (cli.py lines 128-130) and api_run (web_app.py):
assign baseline sequence numbers, mark the drops, keep the visible packets
and re-assign sequence numbers. -/
def post_drop_trace (l : List Packet) (drop_indices : List Nat) : List Packet :=
  compute_sequence_numbers
    (filter_visible_packets
      (apply_drop_indices (compute_sequence_numbers l) drop_indices))

/-- Value of a decimal digit character, none for any other character. -/
def digitVal (c : Char) : Option Nat :=
  if 48 ≤ c.toNat ∧ c.toNat ≤ 57 then some (c.toNat - 48) else none

/-- Parse a nonempty all-digit character list as a decimal number. -/
def parseDigits : List Char → Option Nat
  | [] => none
  | cs =>
    cs.foldl
      (fun acc c =>
        match acc, digitVal c with
        | some n, some d => some (n * 10 + d)
        | _, _ => none)
      (some 0)

/-- The Python int(...) builtin on a string: an optional leading minus sign
followed by decimal digits; anything else raises (models the common cases;
surrounding whitespace and underscore separators are not modelled). -/
def pyStrToInt (s : String) : Option Int :=
  match s.toList with
  | '-' :: cs => (parseDigits cs).map (fun n => -(n : Int))
  | cs => (parseDigits cs).map (fun n => (n : Int))

/-- A JSON scalar, as far as the loader in utils.py inspects one. -/
inductive JVal where
  | jint (n : Int)
  | jstr (s : String)
  | jbool (b : Bool)
  | jnull
deriving DecidableEq, Repr

/-- The Python int(...) builtin on a JSON scalar: integers pass through,
booleans coerce to 0 or 1, strings are parsed as decimal integers (failure
for non-numeric text), null fails. -/
def pyInt : JVal → Option Int
  | JVal.jint n => some n
  | JVal.jbool b => some (if b then 1 else 0)
  | JVal.jstr s => pyStrToInt s
  | JVal.jnull => none

/-- One raw trace record as consumed by load_packet_trace: a direction
string, a possibly missing payload_len value and a msg_type label. -/
structure RawRecord where
  direction : String
  payload_len : Option JVal
  msg_type : String
deriving DecidableEq, Repr

/-- The error kinds the loader can raise (section 7 of the spec):
an invalid direction string, reported with the offending value and the
source path, or a malformed record (missing or non-numeric payload_len). -/
inductive LoadError where
  | invalidDirection (value : String) (path : String)
  | malformedRecord
deriving DecidableEq, Repr

/-- Processing of one record inside the loop of load_packet_trace
(utils.py lines 97-111): validate the direction first, then convert the
payload length with int(...). -/
def loadOne (path : String) (idx : Nat) (r : RawRecord) : Except LoadError Packet :=
  match Direction.ofString r.direction with
  | none => Except.error (LoadError.invalidDirection r.direction path)
  | some d =>
    match r.payload_len with
    | none => Except.error LoadError.malformedRecord
    | some v =>
      match pyInt v with
      | none => Except.error LoadError.malformedRecord
      | some n => Except.ok { index := idx, direction := d, payload_len := n, msg_type := r.msg_type }

/-- The enumerate loop of load_packet_trace: records are processed in order
and the first failure aborts the whole load. -/
def loadAux (path : String) : Nat → List RawRecord → Except LoadError (List Packet)
  | _, [] => Except.ok []
  | idx, r :: rs =>
    match loadOne path idx r with
    | Except.error e => Except.error e
    | Except.ok p =>
      match loadAux path (idx + 1) rs with
      | Except.error e => Except.error e
      | Except.ok ps => Except.ok (p :: ps)

/-- load_packet_trace from utils.py, over an already-parsed list of raw
records: indices are assigned 0.. in input order. -/
def load_packet_trace (path : String) (raw : List RawRecord) : Except LoadError (List Packet) :=
  loadAux path 0 raw

/-- A record is well-formed when its direction string is one of the two
enumerated values and its payload_len is present and numeric. -/
def recordOkB (r : RawRecord) : Bool :=
  (Direction.ofString r.direction).isSome &&
    (match r.payload_len with
     | some v => (pyInt v).isSome
     | none => false)

/-- A record has a bad payload when payload_len is missing or non-numeric. -/
def payloadBadB (r : RawRecord) : Bool :=
  match r.payload_len with
  | some v => (pyInt v).isNone
  | none => true

/-- One row of the diff table produced by build_diff (web_app.py) and
printed by print_sequence_diff (utils.py). -/
structure DiffRow where
  index : Nat
  direction : Direction
  msg_type : String
  seq_before : Option Nat
  seq_after : Option Nat
  changed : Bool
deriving DecidableEq, Repr

/-- One step of building the base_seq_by_index dictionary: a packet with a
present seq_no and the looked-up index overwrites the accumulator. -/
def baseSeqStep (i : Nat) (acc : Option Nat) (pkt : Packet) : Option Nat :=
  match pkt.seq_no with
  | some v => if pkt.index = i then some v else acc
  | none => acc

/-- The base_seq_by_index dictionary built by build_diff and
print_sequence_diff, read at one index: iterate over the baseline and record
seq_no per index, skipping packets whose seq_no is absent; a later binding
overwrites an earlier one. -/
def baseSeqByIndex (baseline : List Packet) (i : Nat) : Option Nat :=
  baseline.foldl (baseSeqStep i) none

/-- The changed flag of a diff row: true iff both sequence numbers are
present and differ. -/
def diffChanged (seq_before seq_after : Option Nat) : Bool :=
  match seq_before, seq_after with
  | some b, some a => b != a
  | _, _ => false

/-- build_diff from web_app.py (the same comparison print_sequence_diff
renders as text): one row per post-attack packet, with the baseline
sequence number looked up by index. -/
def build_diff (baseline after_attack : List Packet) : List DiffRow :=
  after_attack.map (fun pkt =>
    { index := pkt.index
      direction := pkt.direction
      msg_type := pkt.msg_type
      seq_before := baseSeqByIndex baseline pkt.index
      seq_after := pkt.seq_no
      changed := diffChanged (baseSeqByIndex baseline pkt.index) pkt.seq_no })

/-- A YAML value, as far as select_drop_indices inspects one: scalars,
lists, and string-keyed mappings. -/
inductive YVal where
  | ystr (s : String)
  | yint (n : Int)
  | ybool (b : Bool)
  | ynull
  | ylist (xs : List YVal)
  | ydict (entries : List (String × YVal))
deriving Repr

/-- Mapping lookup on a YAML dict, mirroring Python dict.get: the first
binding of the key (YAML mappings have unique keys). -/
def ydictGet (entries : List (String × YVal)) (key : String) : Option YVal :=
  (entries.find? (fun e => e.1 == key)).map (fun e => e.2)

/-- Python int(...) on a YAML value, as used by the per-element coercion in
select_drop_indices. -/
def pyIntY : YVal → Option Int
  | YVal.yint n => some n
  | YVal.ybool b => some (if b then 1 else 0)
  | YVal.ystr s => pyStrToInt s
  | YVal.ynull => none
  | YVal.ylist _ => none
  | YVal.ydict _ => none

/-- The list comprehension int(i) for i in drop_indices: every element must
coerce, otherwise the comprehension raises. -/
def coerceIndices : List YVal → Option (List Int)
  | [] => some []
  | v :: vs =>
    match pyIntY v, coerceIndices vs with
    | some n, some ns => some (n :: ns)
    | _, _ => none

/-- The error kinds select_drop_indices can raise: a missing (or non-mapping)
profile, a drop_indices value that is not a list, or an element on which the
int(...) coercion fails. -/
inductive SelectError where
  | profileNotFound (name : String)
  | invalidDropList (context : String)
  | intCoercion
deriving DecidableEq, Repr

/-- The default description string for a profile, mirroring the f-string in
attack_proxy.py (the quotes are written via their character code). -/
def defaultProfileDesc (name : String) : String :=
  "profile " ++ String.singleton (Char.ofNat 39) ++ name ++ String.singleton (Char.ofNat 39)

/-- The fall-through branch of select_drop_indices (attack_proxy.py lines
76-81): resolve the top-level drop_indices key, defaulting to the empty
list. -/
def selectTopLevel (config : List (String × YVal)) : Except SelectError (List Int × YVal) :=
  match (ydictGet config "drop_indices").getD (YVal.ylist []) with
  | YVal.ylist xs =>
    match coerceIndices xs with
    | some ns => Except.ok (ns, YVal.ystr "top-level drop_indices")
    | none => Except.error SelectError.intCoercion
  | _ => Except.error (SelectError.invalidDropList "top-level")

/-- select_drop_indices from attack_proxy.py: when the config has a profiles
mapping and a string active_profile, resolve through the named profile;
otherwise fall through to the top-level drop_indices key. -/
def select_drop_indices (config : List (String × YVal)) : Except SelectError (List Int × YVal) :=
  match ydictGet config "profiles", ydictGet config "active_profile" with
  | some (YVal.ydict profiles), some (YVal.ystr active) =>
    match ydictGet profiles active with
    | some (YVal.ydict profile) =>
      match (ydictGet profile "drop_indices").getD (YVal.ylist []) with
      | YVal.ylist xs =>
        match coerceIndices xs with
        | some ns =>
          Except.ok (ns, (ydictGet profile "description").getD (YVal.ystr (defaultProfileDesc active)))
        | none => Except.error SelectError.intCoercion
      | _ => Except.error (SelectError.invalidDropList active)
    | _ => Except.error (SelectError.profileNotFound active)
  | _, _ => selectTopLevel config

/-- The client_indices list comprehension of cmd_explore (cli.py lines
107-111) and api_run (web_app.py): indices of the client-to-server packets
of the baseline. -/
def clientIndices (baseline : List Packet) : List Nat :=
  (baseline.filter (fun p => p.direction == Direction.clientToServer)).map Packet.index

/-- k = max(0, min(random_drop, len(client_indices))) from cmd_explore. -/
def clampK (random_drop : Int) (n : Nat) : Nat :=
  (max 0 (min random_drop (n : Int))).toNat

/-- The data flow of cmd_explore (cli.py lines 100-141), with the
random.sample draw abstracted as a function argument: none models the early
returns (no client packets, or k = 0) where nothing is dropped and no error
is raised; otherwise the draw is sorted ascending (Python sorted, modelled
as an ascending stable sort) and fed through the drop pipeline. -/
def cmd_explore_core (sample : List Nat → Nat → List Nat)
    (packets : List Packet) (random_drop : Int) :
    Option (List Nat × List Packet) :=
  let baseline := compute_sequence_numbers packets
  let ci := clientIndices baseline
  if ci.isEmpty then none
  else
    let k := clampK random_drop ci.length
    if k = 0 then none
    else
      let chosen := List.insertionSort (fun a b => a ≤ b) (sample ci k)
      let attacked := apply_drop_indices baseline chosen
      let visible := filter_visible_packets attacked
      some (chosen, compute_sequence_numbers visible)

/-- A small concrete trace used to instantiate the theorems below. -/
def tr0 : List Packet :=
  [{ index := 0, direction := Direction.clientToServer, payload_len := 16, msg_type := "KEXINIT" },
   { index := 1, direction := Direction.serverToClient, payload_len := 16, msg_type := "KEXINIT" },
   { index := 2, direction := Direction.clientToServer, payload_len := 32, msg_type := "DHINIT" },
   { index := 3, direction := Direction.serverToClient, payload_len := 80, msg_type := "DHREPLY" },
   { index := 4, direction := Direction.clientToServer, payload_len := 12, msg_type := "NEWKEYS" }]

/-- Claim C1: compute_sequence_numbers returns a sequence of equal length
and order in which each packet keeps all its fields except seq_no, which
becomes its 0-based rank among the packets of its own direction up to and
including itself; consequently for each direction the assigned numbers are
exactly 0..k-1 in input order, where k counts that direction in the input
(dropped-but-present packets are counted like any other packet, so they
consume a counter slot). -/
theorem C1_sequence_assigner (l : List Packet) :
    (compute_sequence_numbers l).length = l.length ∧
    (∀ (j : Nat) (hj : j < l.length) (hj2 : j < (compute_sequence_numbers l).length),
      (compute_sequence_numbers l)[j] =
        { l[j] with seq_no := some (rankBefore l j l[j].direction) }) ∧
    (∀ d : Direction,
      ((compute_sequence_numbers l).filter (fun p => p.direction == d)).map Packet.seq_no =
        (List.range (countDir d l)).map some) := by
  refine ⟨compute_sequence_numbers_length l, ?_, ?_⟩
  · intro j hj hj2
    exact compute_sequence_numbers_getElem l j hj hj2
  · intro d
    exact compute_sequence_numbers_filter_dir d l

/-- Witness for C1 on a concrete 5-packet trace. -/
theorem C1_sequence_assigner_witness :
    (compute_sequence_numbers tr0).get ⟨2, by decide⟩ =
      { tr0.get ⟨2, by decide⟩ with
          seq_no := some (rankBefore tr0 2 (tr0.get ⟨2, by decide⟩).direction) } :=
  (C1_sequence_assigner tr0).2.1 2 (by decide) (by decide)

/-- Claim C4: on a trace with no dropped packets, filtering and then
assigning sequence numbers agrees with assigning directly. -/
theorem C4_filter_then_assign_noop (l : List Packet)
    (h : ∀ p ∈ l, p.dropped = false) :
    compute_sequence_numbers (filter_visible_packets l) = compute_sequence_numbers l := by
  have hfix : filter_visible_packets l = l :=
    List.filter_eq_self.mpr (fun a ha => by simp [h a ha])
  rw [hfix]

/-- Witness for C4 on a concrete drop-free trace. -/
theorem C4_filter_then_assign_noop_witness :
    compute_sequence_numbers (filter_visible_packets tr0) = compute_sequence_numbers tr0 :=
  C4_filter_then_assign_noop tr0 (by decide)

/-- Claim C5: apply_drop_indices keeps length and order, sets dropped on
exactly the packets whose index is in the target list while leaving their
other fields unchanged, returns every other packet unchanged (unknown
target indices are silently ignored since the result is defined pointwise),
and two target lists with the same members (so in particular with
duplicates) give the same result. -/
theorem C5_drop_simulator (l : List Packet) (drops : List Nat) :
    (apply_drop_indices l drops).length = l.length ∧
    (∀ (j : Nat) (hj : j < l.length) (hj2 : j < (apply_drop_indices l drops).length),
      (apply_drop_indices l drops)[j] =
        if (l[j]).index ∈ drops then { l[j] with dropped := true } else l[j]) ∧
    (∀ drops2 : List Nat, (∀ i : Nat, i ∈ drops ↔ i ∈ drops2) →
      apply_drop_indices l drops = apply_drop_indices l drops2) := by
  refine ⟨by simp [apply_drop_indices], ?_, ?_⟩
  · intro j hj hj2
    simp [apply_drop_indices]
  · intro drops2 hiff
    unfold apply_drop_indices
    apply List.map_congr_left
    intro a _
    by_cases hmem : a.index ∈ drops
    · rw [if_pos hmem, if_pos ((hiff a.index).mp hmem)]
    · rw [if_neg hmem, if_neg (fun h => hmem ((hiff a.index).mpr h))]

/-- Witness for C5: a concrete drop set, with a duplicated variant. -/
theorem C5_drop_simulator_witness :
    ((apply_drop_indices tr0 [1, 3]).get ⟨1, by decide⟩ =
      if (tr0.get ⟨1, by decide⟩).index ∈ [1, 3] then { tr0.get ⟨1, by decide⟩ with dropped := true }
      else tr0.get ⟨1, by decide⟩) ∧
    apply_drop_indices tr0 [1, 3] = apply_drop_indices tr0 [3, 1, 1] :=
  ⟨(C5_drop_simulator tr0 [1, 3]).2.1 1 (by decide) (by decide),
   (C5_drop_simulator tr0 [1, 3]).2.2 [3, 1, 1]
     (fun i => by simp only [List.mem_cons, List.not_mem_nil, or_false]; tauto)⟩

theorem loadOne_ok_of_recordOk (path : String) (idx : Nat) (r : RawRecord)
    (h : recordOkB r = true) : ∃ p, loadOne path idx r = Except.ok p := by
  cases hdir : Direction.ofString r.direction with
  | none => simp [recordOkB, hdir] at h
  | some d =>
    cases hpl : r.payload_len with
    | none => simp [recordOkB, hpl] at h
    | some v =>
      cases hpi : pyInt v with
      | none => simp [recordOkB, hdir, hpl, hpi] at h
      | some n =>
        exact ⟨{ index := idx, direction := d, payload_len := n, msg_type := r.msg_type },
          by simp [loadOne, hdir, hpl, hpi]⟩

theorem recordOk_of_loadOne_ok (path : String) (idx : Nat) (r : RawRecord)
    (p : Packet) (h : loadOne path idx r = Except.ok p) : recordOkB r = true := by
  cases hdir : Direction.ofString r.direction with
  | none => simp [loadOne, hdir] at h
  | some d =>
    cases hpl : r.payload_len with
    | none => simp [loadOne, hdir, hpl] at h
    | some v =>
      cases hpi : pyInt v with
      | none => simp [loadOne, hdir, hpl, hpi] at h
      | some n => simp [recordOkB, hdir, hpl, hpi]

/-- A load that returns a trace had only well-formed records: contrapositive
of atomic failure. -/
theorem loadAux_ok_recordOk (path : String) (raw : List RawRecord) :
    ∀ (idx : Nat) (pkts : List Packet), loadAux path idx raw = Except.ok pkts →
      ∀ (k : Nat) (hk : k < raw.length), recordOkB (raw[k]) = true := by
  induction raw with
  | nil => intro idx pkts _ k hk; exact absurd hk (Nat.not_lt_zero k)
  | cons r rs ih =>
    intro idx pkts hok k hk
    cases h1 : loadOne path idx r with
    | error e => rw [loadAux, h1] at hok; exact absurd hok (by simp)
    | ok p =>
      cases h2 : loadAux path (idx + 1) rs with
      | error e => rw [loadAux, h1, h2] at hok; exact absurd hok (by simp)
      | ok ps =>
        cases k with
        | zero => exact recordOk_of_loadOne_ok path idx r p h1
        | succ m =>
          exact ih (idx + 1) ps h2 m (Nat.lt_of_succ_lt_succ hk)

/-- Failure characterization of the load loop: with all records before j
well-formed, a bad direction at j fails with InvalidDirection naming the
value and the path, and a bad payload at j (direction valid) fails with
MalformedRecord. -/
theorem loadAux_fail_char (path : String) (raw : List RawRecord) :
    ∀ (idx j : Nat) (hj : j < raw.length),
    (∀ (k : Nat) (hk : k < raw.length), k < j → recordOkB (raw[k]) = true) →
    ((Direction.ofString (raw[j]).direction = none →
      loadAux path idx raw =
        Except.error (LoadError.invalidDirection (raw[j]).direction path)) ∧
     ((Direction.ofString (raw[j]).direction).isSome = true →
      payloadBadB (raw[j]) = true →
      loadAux path idx raw = Except.error LoadError.malformedRecord)) := by
  induction raw with
  | nil => intro idx j hj; exact absurd hj (Nat.not_lt_zero j)
  | cons r rs ih =>
    intro idx j hj hprior
    cases j with
    | zero =>
      constructor
      · intro hnone
        simp only [List.getElem_cons_zero] at hnone ⊢
        simp [loadAux, loadOne, hnone]
      · intro hsome hbad
        simp only [List.getElem_cons_zero] at hsome hbad ⊢
        obtain ⟨d, hd⟩ := Option.isSome_iff_exists.mp hsome
        cases hpl : r.payload_len with
        | none => simp [loadAux, loadOne, hd, hpl]
        | some v =>
          have hpi : pyInt v = none := by
            simp [payloadBadB, hpl, Option.isNone_iff_eq_none] at hbad
            exact hbad
          simp [loadAux, loadOne, hd, hpl, hpi]
    | succ m =>
      have hr0 : recordOkB r = true := hprior 0 (by simp) (Nat.succ_pos m)
      obtain ⟨p, hp⟩ := loadOne_ok_of_recordOk path idx r hr0
      have hm : m < rs.length := Nat.lt_of_succ_lt_succ hj
      have hprior2 : ∀ (k : Nat) (hk : k < rs.length), k < m → recordOkB (rs[k]) = true := by
        intro k hk hkm
        have := hprior (k + 1) (by simpa using Nat.succ_lt_succ hk) (Nat.succ_lt_succ hkm)
        simpa using this
      obtain ⟨iha, ihb⟩ := ih (idx + 1) m hm hprior2
      constructor
      · intro hnone
        simp only [List.getElem_cons_succ] at hnone ⊢
        rw [loadAux, hp, iha hnone]
      · intro hsome hbad
        simp only [List.getElem_cons_succ] at hsome hbad ⊢
        rw [loadAux, hp, ihb hsome hbad]

/-- Claim C6: the Trace Loader fails with InvalidDirection (naming the
offending value and the source path) on an unrecognized direction string,
fails with MalformedRecord on a missing or non-numeric payload_len, and any
malformed record makes the whole load fail with no trace returned. The
hypothesis restricts the first two parts to the first malformed record,
since the loader stops at the earliest failure. -/
theorem C6_trace_loader (path : String) (raw : List RawRecord) (j : Nat)
    (hj : j < raw.length)
    (hprior : ∀ (k : Nat) (hk : k < raw.length), k < j → recordOkB (raw[k]) = true) :
    ((Direction.ofString (raw[j]).direction = none →
      load_packet_trace path raw =
        Except.error (LoadError.invalidDirection (raw[j]).direction path)) ∧
     ((Direction.ofString (raw[j]).direction).isSome = true →
      payloadBadB (raw[j]) = true →
      load_packet_trace path raw = Except.error LoadError.malformedRecord)) ∧
    (recordOkB (raw[j]) = false →
      ∀ pkts : List Packet, ¬ load_packet_trace path raw = Except.ok pkts) := by
  constructor
  · exact loadAux_fail_char path raw 0 j hj hprior
  · intro hbad pkts hok
    have hgood := loadAux_ok_recordOk path raw 0 pkts hok j hj
    rw [hgood] at hbad
    exact Bool.noConfusion hbad

/-- A raw trace whose second record has an unrecognized direction string. -/
def rawBadDir : List RawRecord :=
  [{ direction := "C->S", payload_len := some (JVal.jint 16), msg_type := "KEXINIT" },
   { direction := "X->Y", payload_len := some (JVal.jint 16), msg_type := "KEXINIT" }]

/-- A raw trace whose only record has a non-numeric payload_len. -/
def rawBadPayload : List RawRecord :=
  [{ direction := "C->S", payload_len := some (JVal.jstr "abc"), msg_type := "KEXINIT" }]

/-- Witness for C6: a bad direction string fails with InvalidDirection
naming the value and the path, and a non-numeric payload_len fails with
MalformedRecord. -/
theorem C6_trace_loader_witness :
    load_packet_trace "trace.json" rawBadDir =
      Except.error (LoadError.invalidDirection "X->Y" "trace.json") ∧
    load_packet_trace "trace.json" rawBadPayload =
      Except.error LoadError.malformedRecord :=
  ⟨(C6_trace_loader "trace.json" rawBadDir 1 (by decide) (by decide)).1.1 (by decide),
   (C6_trace_loader "trace.json" rawBadPayload 0 (by decide) (by decide)).1.2
     (by decide) (by decide)⟩

/-- A list in which exactly the packet at one position is dropped filters to
that list with the position erased. -/
theorem filter_single_drop (l : List Packet) :
    ∀ (jd : Nat), jd < l.length →
    (∀ (j : Nat) (hj : j < l.length), ((l[j]).dropped = true ↔ j = jd)) →
    filter_visible_packets l = l.eraseIdx jd := by
  induction l with
  | nil => intro jd hjd _; exact absurd hjd (Nat.not_lt_zero jd)
  | cons x rest ih =>
    intro jd hjd hchar
    cases jd with
    | zero =>
      have hx : x.dropped = true := (hchar 0 (by simp)).mpr rfl
      have hrest : ∀ p ∈ rest, p.dropped = false := by
        intro p hp
        obtain ⟨m, hm, hpm⟩ := List.mem_iff_getElem.mp hp
        have := (hchar (m + 1) (by simpa using Nat.succ_lt_succ hm))
        simp only [List.getElem_cons_succ, hpm] at this
        cases hpd : p.dropped
        · rfl
        · exact absurd (this.mp hpd) (Nat.succ_ne_zero m)
      have : filter_visible_packets (x :: rest) = filter_visible_packets rest := by
        simp [filter_visible_packets, hx]
      rw [this, List.eraseIdx_cons_zero]
      exact List.filter_eq_self.mpr (fun a ha => by simp [hrest a ha])
    | succ m =>
      have hx : x.dropped = false := by
        cases hpd : x.dropped
        · rfl
        · have := (hchar 0 (by simp))
          simp only [List.getElem_cons_zero, hpd] at this
          exact absurd this.mp (by simp)
      have hm : m < rest.length := Nat.lt_of_succ_lt_succ hjd
      have hchar2 : ∀ (j : Nat) (hj : j < rest.length), ((rest[j]).dropped = true ↔ j = m) := by
        intro j hj
        have := hchar (j + 1) (by simpa using Nat.succ_lt_succ hj)
        simpa using this
      have : filter_visible_packets (x :: rest) = x :: filter_visible_packets rest := by
        simp [filter_visible_packets, hx]
      rw [this, List.eraseIdx_cons_succ, ih m hm hchar2]

/-- Distinct packet indices identify positions. -/
theorem index_inj (l : List Packet) (hnd : (l.map Packet.index).Nodup)
    (j₁ j₂ : Nat) (h₁ : j₁ < l.length) (h₂ : j₂ < l.length)
    (heq : (l[j₁]).index = (l[j₂]).index) : j₁ = j₂ := by
  have hb₁ : j₁ < (l.map Packet.index).length := by simpa using h₁
  have hb₂ : j₂ < (l.map Packet.index).length := by simpa using h₂
  have hm : (l.map Packet.index)[j₁] = (l.map Packet.index)[j₂] := by
    simpa using heq
  exact (List.Nodup.getElem_inj_iff hnd).mp hm

theorem apply_drop_getElem (b : List Packet) (drops : List Nat) (j : Nat)
    (hj : j < b.length) (hj2 : j < (apply_drop_indices b drops).length) :
    (apply_drop_indices b drops)[j] =
      if (b[j]).index ∈ drops then { b[j] with dropped := true } else b[j] := by
  simp [apply_drop_indices]

/-- Dropping the single index of position jd and filtering collapses to
erasing position jd from the baseline. -/
theorem visible_single_drop (l : List Packet) (jd : Nat) (hjd : jd < l.length)
    (hnd : (l.map Packet.index).Nodup)
    (hdrop : ∀ p ∈ l, p.dropped = false) :
    filter_visible_packets
        (apply_drop_indices (compute_sequence_numbers l) [(l[jd]).index]) =
      (compute_sequence_numbers l).eraseIdx jd := by
  have hbl : (compute_sequence_numbers l).length = l.length :=
    compute_sequence_numbers_length l
  have hattlen : (apply_drop_indices (compute_sequence_numbers l) [(l[jd]).index]).length =
      (compute_sequence_numbers l).length := by
    simp [apply_drop_indices]
  have hbidx : ∀ (j : Nat) (hj : j < l.length) (hj2 : j < (compute_sequence_numbers l).length),
      ((compute_sequence_numbers l)[j]).index = (l[j]).index := by
    intro j hj hj2
    rw [compute_sequence_numbers_getElem l j hj hj2]
  have hbdrop : ∀ (j : Nat) (hj : j < l.length) (hj2 : j < (compute_sequence_numbers l).length),
      ((compute_sequence_numbers l)[j]).dropped = false := by
    intro j hj hj2
    rw [compute_sequence_numbers_getElem l j hj hj2]
    exact hdrop (l[j]) (List.getElem_mem hj)
  have hmem : ∀ (j : Nat) (hj : j < l.length) (hj2 : j < (compute_sequence_numbers l).length),
      (((compute_sequence_numbers l)[j]).index ∈ [(l[jd]).index]) ↔ j = jd := by
    intro j hj hj2
    rw [hbidx j hj hj2]
    constructor
    · intro hin
      have : (l[j]).index = (l[jd]).index := by simpa using hin
      exact index_inj l hnd j jd hj hjd this
    · intro hji
      subst hji
      simp
  have hchar : ∀ (j : Nat)
      (hj3 : j < (apply_drop_indices (compute_sequence_numbers l) [(l[jd]).index]).length),
      (((apply_drop_indices (compute_sequence_numbers l) [(l[jd]).index])[j]).dropped = true
        ↔ j = jd) := by
    intro j hj3
    have hj2 : j < (compute_sequence_numbers l).length := by
      rw [hattlen] at hj3; exact hj3
    have hj : j < l.length := by rw [hbl] at hj2; exact hj2
    rw [apply_drop_getElem _ _ j hj2 hj3]
    by_cases hjjd : j = jd
    · rw [if_pos ((hmem j hj hj2).mpr hjjd)]
      simpa using hjjd
    · rw [if_neg (fun hin => hjjd ((hmem j hj hj2).mp hin))]
      rw [hbdrop j hj hj2]
      simpa using hjjd
  have hjd3 : jd < (apply_drop_indices (compute_sequence_numbers l) [(l[jd]).index]).length := by
    rw [hattlen, hbl]; exact hjd
  rw [filter_single_drop _ jd hjd3 hchar]
  apply List.ext_getElem
  · rw [List.length_eraseIdx, List.length_eraseIdx, hattlen]
  · intro n h₁ h₂
    have hjd2 : jd < (compute_sequence_numbers l).length := by rw [hbl]; exact hjd
    rw [List.getElem_eraseIdx _ _ _ h₁, List.getElem_eraseIdx _ _ _ h₂]
    by_cases hn : n < jd
    · rw [dif_pos hn, dif_pos hn]
      have hn2 : n < (compute_sequence_numbers l).length := lt_trans hn hjd2
      have hnl : n < l.length := by rw [hbl] at hn2; exact hn2
      have hn3 : n < (apply_drop_indices (compute_sequence_numbers l) [(l[jd]).index]).length := by
        rw [hattlen]; exact hn2
      rw [apply_drop_getElem _ _ n hn2 hn3]
      rw [if_neg (fun hin => (Nat.ne_of_lt hn) ((hmem n hnl hn2).mp hin))]
    · rw [dif_neg hn, dif_neg hn]
      have hn2 : n + 1 < (compute_sequence_numbers l).length := by
        rw [List.length_eraseIdx] at h₂
        simp [hjd2] at h₂
        omega
      have hnl : n + 1 < l.length := by rw [hbl] at hn2; exact hn2
      have hn3 : n + 1 < (apply_drop_indices (compute_sequence_numbers l) [(l[jd]).index]).length := by
        rw [hattlen]; exact hn2
      rw [apply_drop_getElem _ _ (n + 1) hn2 hn3]
      rw [if_neg (fun hin => (by omega : ¬ n + 1 = jd) ((hmem (n + 1) hnl hn2).mp hin))]

/-- The post-drop trace of a single present drop is one packet shorter. -/
theorem post_drop_trace_length (l : List Packet) (jd : Nat) (hjd : jd < l.length)
    (hnd : (l.map Packet.index).Nodup)
    (hdrop : ∀ p ∈ l, p.dropped = false) :
    (post_drop_trace l [(l[jd]).index]).length + 1 = l.length := by
  rw [post_drop_trace, visible_single_drop l jd hjd hnd hdrop,
    compute_sequence_numbers_length, List.length_eraseIdx]
  have hjd2 : jd < (compute_sequence_numbers l).length := by
    rw [compute_sequence_numbers_length]; exact hjd
  rw [compute_sequence_numbers_length] at hjd2 ⊢
  simp only [hjd2, if_true]
  omega

theorem take_eraseIdx_le {α : Type} (b : List α) (jd k : Nat) (hjd : jd < b.length)
    (hk : k ≤ jd) : (b.eraseIdx jd).take k = b.take k := by
  rw [List.eraseIdx_eq_take_drop_succ, List.take_append_eq_append_take]
  have h1 : (b.take jd).take k = b.take k := by
    rw [List.take_take, Nat.min_eq_left hk]
  have h2 : k - (b.take jd).length = 0 := by
    simp only [List.length_take]
    omega
  rw [h1, h2]
  simp

theorem take_eraseIdx_ge {α : Type} (b : List α) (jd k : Nat) (hjd : jd < b.length)
    (hk : jd ≤ k) :
    (b.eraseIdx jd).take k = b.take jd ++ (b.drop (jd + 1)).take (k - jd) := by
  rw [List.eraseIdx_eq_take_drop_succ, List.take_append_eq_append_take]
  congr 1
  · rw [List.take_take, Nat.min_eq_right hk]
  · congr 1
    simp only [List.length_take]
    omega

theorem take_split_at {α : Type} (b : List α) (jd k : Nat) (hjd : jd < b.length)
    (hk : jd ≤ k) :
    b.take (k + 1) = b.take jd ++ (b[jd]) :: (b.drop (jd + 1)).take (k - jd) := by
  conv_lhs => rw [← List.take_append_drop jd b]
  rw [List.take_append_eq_append_take]
  congr 1
  · rw [List.take_take]
    congr 1
    omega
  · rw [List.drop_eq_getElem_cons hjd]
    have h1 : k + 1 - (b.take jd).length = (k - jd) + 1 := by
      simp only [List.length_take]
      omega
    rw [h1, List.take_succ_cons]

/-- Positions before the dropped one keep their identity and their sequence
number through the single-drop pipeline. -/
theorem single_drop_low (l : List Packet) (jd : Nat) (hjd : jd < l.length)
    (hnd : (l.map Packet.index).Nodup)
    (hdrop : ∀ p ∈ l, p.dropped = false) (k : Nat) (hklt : k < jd)
    (hk : k < (post_drop_trace l [(l[jd]).index]).length)
    (hb : k < (compute_sequence_numbers l).length) :
    (post_drop_trace l [(l[jd]).index])[k] =
      (compute_sequence_numbers l)[k] := by
  have hbl : (compute_sequence_numbers l).length = l.length :=
    compute_sequence_numbers_length l
  have hjd2 : jd < (compute_sequence_numbers l).length := by rw [hbl]; exact hjd
  have hkl : k < l.length := by rw [hbl] at hb; exact hb
  have hvis := visible_single_drop l jd hjd hnd hdrop
  have hkv : k < ((compute_sequence_numbers l).eraseIdx jd).length := by
    rw [post_drop_trace, hvis] at hk
    rw [compute_sequence_numbers_length] at hk
    exact hk
  have hkv2 : k < (compute_sequence_numbers ((compute_sequence_numbers l).eraseIdx jd)).length := by
    rw [compute_sequence_numbers_length]; exact hkv
  have hpost : (post_drop_trace l [(l[jd]).index])[k] =
      (compute_sequence_numbers ((compute_sequence_numbers l).eraseIdx jd))[k] := by
    have : post_drop_trace l [(l[jd]).index] =
        compute_sequence_numbers ((compute_sequence_numbers l).eraseIdx jd) := by
      rw [post_drop_trace, hvis]
    exact List.getElem_of_eq this hk
  rw [hpost]
  rw [compute_sequence_numbers_getElem _ k hkv (by rw [compute_sequence_numbers_length]; exact hkv)]
  rw [compute_sequence_numbers_getElem l k hkl hb]
  have hget : ((compute_sequence_numbers l).eraseIdx jd)[k] =
      (compute_sequence_numbers l)[k] := by
    rw [List.getElem_eraseIdx _ _ _ hkv, dif_pos hklt]
  rw [hget]
  rw [compute_sequence_numbers_getElem l k hkl hb]
  have hrank : rankBefore ((compute_sequence_numbers l).eraseIdx jd) k (l[k]).direction =
      rankBefore l k (l[k]).direction := by
    rw [rankBefore, rankBefore, take_eraseIdx_le _ jd k hjd2 (Nat.le_of_lt hklt)]
    apply countDir_congr
    rw [List.map_take, List.map_take, compute_sequence_numbers_map_direction]
  rw [hrank]

/-- Positions at or after the dropped one correspond to the next baseline
position: identity fields carry over, a different-direction survivor keeps
its sequence number, and a same-direction survivor has it decremented by
exactly 1. -/
theorem single_drop_high (l : List Packet) (jd : Nat) (hjd : jd < l.length)
    (hnd : (l.map Packet.index).Nodup)
    (hdrop : ∀ p ∈ l, p.dropped = false) (k : Nat) (hkge : jd ≤ k)
    (hk : k < (post_drop_trace l [(l[jd]).index]).length)
    (hb : k + 1 < (compute_sequence_numbers l).length)
    (hbjd : jd < (compute_sequence_numbers l).length) :
    ((post_drop_trace l [(l[jd]).index])[k]).index =
        ((compute_sequence_numbers l)[k + 1]).index ∧
    ((post_drop_trace l [(l[jd]).index])[k]).direction =
        ((compute_sequence_numbers l)[k + 1]).direction ∧
    (((compute_sequence_numbers l)[k + 1]).direction ≠
        ((compute_sequence_numbers l)[jd]).direction →
      ((post_drop_trace l [(l[jd]).index])[k]).seq_no =
        ((compute_sequence_numbers l)[k + 1]).seq_no) ∧
    (((compute_sequence_numbers l)[k + 1]).direction =
        ((compute_sequence_numbers l)[jd]).direction →
      ∃ rq : Nat, ((compute_sequence_numbers l)[k + 1]).seq_no = some rq ∧ 1 ≤ rq ∧
        ((post_drop_trace l [(l[jd]).index])[k]).seq_no = some (rq - 1)) := by
  have hbl : (compute_sequence_numbers l).length = l.length :=
    compute_sequence_numbers_length l
  have hkl : k + 1 < l.length := by rw [hbl] at hb; exact hb
  have hvis := visible_single_drop l jd hjd hnd hdrop
  have hkv : k < ((compute_sequence_numbers l).eraseIdx jd).length := by
    rw [post_drop_trace, hvis] at hk
    rw [compute_sequence_numbers_length] at hk
    exact hk
  have hkv2 : k < (compute_sequence_numbers ((compute_sequence_numbers l).eraseIdx jd)).length := by
    rw [compute_sequence_numbers_length]; exact hkv
  have hpost : (post_drop_trace l [(l[jd]).index])[k] =
      (compute_sequence_numbers ((compute_sequence_numbers l).eraseIdx jd))[k] := by
    have heq : post_drop_trace l [(l[jd]).index] =
        compute_sequence_numbers ((compute_sequence_numbers l).eraseIdx jd) := by
      rw [post_drop_trace, hvis]
    exact List.getElem_of_eq heq hk
  have hget : ((compute_sequence_numbers l).eraseIdx jd)[k] =
      (compute_sequence_numbers l)[k + 1] := by
    rw [List.getElem_eraseIdx _ _ _ hkv, dif_neg (by omega)]
  have hpost2 : (post_drop_trace l [(l[jd]).index])[k] =
      { (compute_sequence_numbers l)[k + 1] with
          seq_no := some (rankBefore ((compute_sequence_numbers l).eraseIdx jd) k
            (((compute_sequence_numbers l)[k + 1]).direction) ) } := by
    rw [hpost]
    rw [compute_sequence_numbers_getElem _ k hkv
      (by rw [compute_sequence_numbers_length]; exact hkv)]
    rw [hget]
  have hbchar := compute_sequence_numbers_getElem l (k + 1) hkl hb
  have hbchar_jd := compute_sequence_numbers_getElem l jd hjd hbjd
  -- direction abbreviations
  have hdir_eq : ((compute_sequence_numbers l)[k + 1]).direction = (l[k + 1]).direction := by
    rw [hbchar]
  have hdirjd_eq : ((compute_sequence_numbers l)[jd]).direction = (l[jd]).direction := by
    rw [hbchar_jd]
  -- the rank of the survivor in the erased baseline, split at jd
  have hrank_split : ∀ d : Direction,
      countDir d (((compute_sequence_numbers l).eraseIdx jd).take k) =
        countDir d (l.take jd) + countDir d ((l.drop (jd + 1)).take (k - jd)) := by
    intro d
    rw [take_eraseIdx_ge _ jd k hbjd hkge, countDir_append]
    congr 1
    · apply countDir_congr
      rw [List.map_take, List.map_take, compute_sequence_numbers_map_direction]
    · apply countDir_congr
      rw [List.map_take, List.map_take, List.map_drop, List.map_drop,
        compute_sequence_numbers_map_direction]
  -- the baseline rank of the survivor, split at jd
  have hrank_base : ∀ d : Direction,
      countDir d (l.take (k + 1)) =
        countDir d (l.take jd) + (if (l[jd]).direction = d then 1 else 0) +
          countDir d ((l.drop (jd + 1)).take (k - jd)) := by
    intro d
    rw [take_split_at l jd k hjd hkge, countDir_append, countDir_cons]
    omega
  refine ⟨?_, ?_, ?_, ?_⟩
  · rw [hpost2, hbchar]
  · rw [hpost2, hbchar]
  · intro hne
    rw [hdir_eq, hdirjd_eq] at hne
    have hrk : rankBefore ((compute_sequence_numbers l).eraseIdx jd) k
        ((l[k + 1]).direction) =
        rankBefore l (k + 1) ((l[k + 1]).direction) := by
      rw [rankBefore, rankBefore, hrank_split, hrank_base]
      rw [if_neg (fun h => hne h.symm)]
      omega
    simp only [hpost2, hbchar, hrk]
  · intro hsame
    rw [hdir_eq, hdirjd_eq] at hsame
    have hrk : rankBefore ((compute_sequence_numbers l).eraseIdx jd) k
        ((l[k + 1]).direction) =
        rankBefore l (k + 1) ((l[k + 1]).direction) - 1 := by
      rw [rankBefore, rankBefore, hrank_split, hrank_base]
      rw [if_pos hsame.symm]
      omega
    refine ⟨rankBefore l (k + 1) ((l[k + 1]).direction), ?_, ?_, ?_⟩
    · rw [hbchar]
    · rw [rankBefore, hrank_base]
      rw [if_pos hsame.symm]
      omega
    · simp only [hpost2, hbchar, hrk]

/-- In the baseline, an earlier same-direction packet has a rank no larger
than a later one. -/
theorem baseline_rank_le (l : List Packet) (j jd : Nat) (hj : j < l.length)
    (hjd : jd < l.length) (hle : j ≤ jd)
    (hdir : (l[j]).direction = (l[jd]).direction)
    (hbj : j < (compute_sequence_numbers l).length)
    (hbjd : jd < (compute_sequence_numbers l).length)
    (rq rd : Nat)
    (hrq : ((compute_sequence_numbers l)[j]).seq_no = some rq)
    (hrd : ((compute_sequence_numbers l)[jd]).seq_no = some rd) :
    rq ≤ rd := by
  rw [compute_sequence_numbers_getElem l j hj hbj] at hrq
  rw [compute_sequence_numbers_getElem l jd hjd hbjd] at hrd
  simp only [Option.some.injEq] at hrq hrd
  rw [← hrq, ← hrd, hdir]
  rw [rankBefore, rankBefore]
  have hsub : (l.take j).Sublist (l.take jd) := by
    have h1 : l.take j = (l.take jd).take j := by
      rw [List.take_take, Nat.min_eq_left hle]
    rw [h1]
    exact List.take_sublist j (l.take jd)
  exact List.Sublist.countP_le _ hsub

/-- Claim C2: drop a single present index from a baseline-numbered trace,
filter to the visible packets and re-number. Any surviving packet whose
direction differs from the dropped packet keeps its baseline sequence
number, and any surviving same-direction packet whose baseline rank
exceeds the dropped packet's rank has it decremented by exactly 1.
Survivor positions k map to baseline position k (before the drop) or k+1
(at or after it); the trace is assumed to have distinct indices and no
pre-existing drops. -/
theorem C2_single_drop (l : List Packet) (jd : Nat) (hjd : jd < l.length)
    (hnd : (l.map Packet.index).Nodup)
    (hdrop : ∀ p ∈ l, p.dropped = false)
    (k : Nat) (p q qd : Packet)
    (hp : (post_drop_trace l [(l[jd]).index])[k]? = some p)
    (hq : (compute_sequence_numbers l)[if k < jd then k else k + 1]? = some q)
    (hqd : (compute_sequence_numbers l)[jd]? = some qd) :
    p.index = q.index ∧
    p.direction = q.direction ∧
    (q.direction ≠ qd.direction → p.seq_no = q.seq_no) ∧
    (q.direction = qd.direction → ∀ rq rd : Nat, q.seq_no = some rq →
      qd.seq_no = some rd → rd < rq → p.seq_no = some (rq - 1)) := by
  obtain ⟨hk, hpk⟩ := List.getElem?_eq_some.mp hp
  obtain ⟨hbjd, hqdk⟩ := List.getElem?_eq_some.mp hqd
  have hbl : (compute_sequence_numbers l).length = l.length :=
    compute_sequence_numbers_length l
  by_cases hcase : k < jd
  · rw [if_pos hcase] at hq
    obtain ⟨hbj, hqk⟩ := List.getElem?_eq_some.mp hq
    have hlow := single_drop_low l jd hjd hnd hdrop k hcase hk hbj
    have hpq : p = q := by rw [← hpk, ← hqk, hlow]
    subst hpq
    refine ⟨rfl, rfl, fun _ => rfl, ?_⟩
    intro hsame rq rd hrq hrd hlt
    have hkl : k < l.length := by rw [hbl] at hbj; exact hbj
    have hdir : (l[k]).direction = (l[jd]).direction := by
      have h1 : ((compute_sequence_numbers l)[k]).direction = (l[k]).direction := by
        rw [compute_sequence_numbers_getElem l k hkl hbj]
      have h2 : ((compute_sequence_numbers l)[jd]).direction = (l[jd]).direction := by
        rw [compute_sequence_numbers_getElem l jd hjd hbjd]
      rw [← h1, ← h2, hqk, hqdk]
      exact hsame
    have hle := baseline_rank_le l k jd hkl hjd (Nat.le_of_lt hcase) hdir hbj hbjd rq rd
      (by rw [hqk]; exact hrq) (by rw [hqdk]; exact hrd)
    omega
  · rw [if_neg hcase] at hq
    obtain ⟨hbj, hqk⟩ := List.getElem?_eq_some.mp hq
    have hkge : jd ≤ k := Nat.le_of_not_lt hcase
    have hhigh := single_drop_high l jd hjd hnd hdrop k hkge hk hbj hbjd
    obtain ⟨hidx, hdir, hdiff, hsame⟩ := hhigh
    refine ⟨?_, ?_, ?_, ?_⟩
    · rw [← hpk, ← hqk]; exact hidx
    · rw [← hpk, ← hqk]; exact hdir
    · intro hne
      rw [← hpk, ← hqk]
      apply hdiff
      rw [hqk, hqdk]
      exact hne
    · intro hsamedir rq rd hrq hrd hlt
      obtain ⟨rq2, hrq2, hge1, hpost⟩ := hsame (by rw [hqk, hqdk]; exact hsamedir)
      have hrqeq : rq2 = rq := by
        rw [hqk] at hrq2
        rw [hrq2] at hrq
        exact (Option.some.injEq _ _ ▸ hrq)
      rw [← hpk, hpost, hrqeq]

/-- Witness for C2: dropping the first client packet of the concrete trace
decrements the next client packet's sequence number from 1 to 0. -/
theorem C2_single_drop_witness :
    ({ index := 2, direction := Direction.clientToServer, payload_len := 32,
       msg_type := "DHINIT", seq_no := some 0, dropped := false } : Packet).seq_no =
      some (1 - 1) :=
  (C2_single_drop tr0 0 (by decide) (by decide) (by decide) 1
    { index := 2, direction := Direction.clientToServer, payload_len := 32,
      msg_type := "DHINIT", seq_no := some 0, dropped := false }
    { index := 2, direction := Direction.clientToServer, payload_len := 32,
      msg_type := "DHINIT", seq_no := some 1, dropped := false }
    { index := 0, direction := Direction.clientToServer, payload_len := 16,
      msg_type := "KEXINIT", seq_no := some 0, dropped := false }
    (by decide) (by decide) (by decide)).2.2.2 (by decide) 1 0 (by decide) (by decide)
    (by decide)

/-- The index map is also untouched by the assigner. -/
theorem computeSeqAux_map_index (c s : Nat) (l : List Packet) :
    (computeSeqAux c s l).map Packet.index = l.map Packet.index := by
  induction l generalizing c s with
  | nil => rfl
  | cons p rest ih =>
    by_cases hd : p.direction = Direction.clientToServer <;>
      simp [computeSeqAux, hd, ih]

theorem compute_sequence_numbers_map_index (l : List Packet) :
    (compute_sequence_numbers l).map Packet.index = l.map Packet.index :=
  computeSeqAux_map_index 0 0 l

theorem baseSeqByIndex_acc (i : Nat) (l : List Packet) (acc : Option Nat) :
    l.foldl (baseSeqStep i) acc =
      match baseSeqByIndex l i with
      | some v => some v
      | none => acc := by
  induction l generalizing acc with
  | nil => simp [baseSeqByIndex]
  | cons p rest ih =>
    rw [List.foldl_cons, ih]
    have hr : baseSeqByIndex (p :: rest) i =
        match baseSeqByIndex rest i with
        | some v => some v
        | none => baseSeqStep i none p := by
      rw [baseSeqByIndex, List.foldl_cons, ih]
    rw [hr]
    cases hbase : baseSeqByIndex rest i
    · cases hseq : p.seq_no
      · simp [baseSeqStep, hseq]
      · by_cases hidx : p.index = i <;> simp [baseSeqStep, hseq, hidx]
    · simp

theorem baseSeqByIndex_cons (p : Packet) (l : List Packet) (i : Nat) :
    baseSeqByIndex (p :: l) i =
      match baseSeqByIndex l i with
      | some v => some v
      | none => baseSeqStep i none p := by
  rw [baseSeqByIndex, List.foldl_cons, baseSeqByIndex_acc]

/-- An index absent from the baseline is absent from the dictionary. -/
theorem baseSeqByIndex_not_mem (l : List Packet) (i : Nat)
    (h : ∀ p ∈ l, p.index ≠ i) : baseSeqByIndex l i = none := by
  induction l with
  | nil => rfl
  | cons p rest ih =>
    rw [baseSeqByIndex_cons, ih (fun q hq => h q (List.mem_cons_of_mem p hq))]
    have hp : p.index ≠ i := h p (List.mem_cons_self p rest)
    cases hseq : p.seq_no
    · simp [baseSeqStep, hseq]
    · simp [baseSeqStep, hseq, hp]

/-- With distinct indices, the dictionary lookup of a packet's index returns
that packet's (present) sequence number. -/
theorem baseSeqByIndex_getElem (b : List Packet) (hnd : (b.map Packet.index).Nodup)
    (j : Nat) (hj : j < b.length) (v : Nat) (hv : (b[j]).seq_no = some v) :
    baseSeqByIndex b ((b[j]).index) = some v := by
  induction b generalizing j with
  | nil => exact absurd hj (Nat.not_lt_zero j)
  | cons p rest ih =>
    have hnd2 : (rest.map Packet.index).Nodup := (List.nodup_cons.mp (by simpa using hnd)).2
    cases j with
    | zero =>
      have hnin : p.index ∉ rest.map Packet.index :=
        (List.nodup_cons.mp (by simpa using hnd)).1
      have hnone : baseSeqByIndex rest p.index = none := by
        apply baseSeqByIndex_not_mem
        intro q hq hqi
        exact hnin (hqi ▸ List.mem_map_of_mem Packet.index hq)
      simp only [List.getElem_cons_zero] at hv ⊢
      rw [baseSeqByIndex_cons, hnone, baseSeqStep, hv]
      simp
    | succ m =>
      have hm : m < rest.length := Nat.lt_of_succ_lt_succ hj
      simp only [List.getElem_cons_succ] at hv ⊢
      rw [baseSeqByIndex_cons, ih hnd2 m hm hv]

/-- The changed flag is set exactly when both sequence numbers are present
and differ. -/
theorem diffChanged_iff (sb sa : Option Nat) :
    diffChanged sb sa = true ↔ (sb.isSome = true ∧ sa.isSome = true ∧ sb ≠ sa) := by
  cases sb <;> cases sa <;> simp [diffChanged]

theorem build_diff_length (baseline after : List Packet) :
    (build_diff baseline after).length = after.length := by
  simp [build_diff]

theorem build_diff_getElem (baseline after : List Packet) (k : Nat)
    (hk : k < after.length) (hk2 : k < (build_diff baseline after).length) :
    (build_diff baseline after)[k] =
      { index := (after[k]).index
        direction := (after[k]).direction
        msg_type := (after[k]).msg_type
        seq_before := baseSeqByIndex baseline ((after[k]).index)
        seq_after := (after[k]).seq_no
        changed := diffChanged (baseSeqByIndex baseline ((after[k]).index))
          ((after[k]).seq_no) } := by
  simp [build_diff]

/-- Claim C3: a diff row's changed flag is true iff both the baseline
sequence number (looked up by matching index) and the post-drop one are
present and differ; and end to end, in the single-drop pipeline, changed is
true exactly for the surviving packets that share the dropped packet's
direction and sit at or after the dropped position (their same-direction
rank shifted). The comparison is a pure function of its two arguments and
returns fresh rows, so neither input is mutated. -/
theorem C3_diff_reporter (baseline after l : List Packet) (jd : Nat)
    (hjd : jd < l.length)
    (hnd : (l.map Packet.index).Nodup)
    (hdrop : ∀ p ∈ l, p.dropped = false) :
    (∀ row ∈ build_diff baseline after,
      (row.changed = true ↔
        (row.seq_before.isSome = true ∧ row.seq_after.isSome = true ∧
          row.seq_before ≠ row.seq_after))) ∧
    (∀ (k : Nat) (row : DiffRow),
      (build_diff (compute_sequence_numbers l)
          (post_drop_trace l [(l[jd]).index]))[k]? = some row →
      (row.changed = true ↔
        (row.direction = (l[jd]).direction ∧ jd ≤ k))) := by
  constructor
  · intro row hrow
    obtain ⟨pkt, hpkt, hrow2⟩ := List.mem_map.mp hrow
    rw [← hrow2]
    exact diffChanged_iff _ _
  · intro k row hrowk
    obtain ⟨hk, hrowk2⟩ := List.getElem?_eq_some.mp hrowk
    have hbl := compute_sequence_numbers_length l
    have hndb : ((compute_sequence_numbers l).map Packet.index).Nodup := by
      rw [compute_sequence_numbers_map_index]; exact hnd
    have hlen := post_drop_trace_length l jd hjd hnd hdrop
    have hkpost : k < (post_drop_trace l [(l[jd]).index]).length := by
      rw [build_diff_length] at hk; exact hk
    have hbjd : jd < (compute_sequence_numbers l).length := by rw [hbl]; exact hjd
    have hrowlit := hrowk2
    rw [build_diff_getElem _ _ k hkpost hk] at hrowlit
    rw [← hrowlit]
    by_cases hcase : k < jd
    · have hbk : k < (compute_sequence_numbers l).length := by rw [hbl]; omega
      have hkl : k < l.length := by omega
      have hlow := single_drop_low l jd hjd hnd hdrop k hcase hkpost hbk
      have hchar := compute_sequence_numbers_getElem l k hkl hbk
      have hseq : ((compute_sequence_numbers l)[k]).seq_no =
          some (rankBefore l k ((l[k]).direction)) := by rw [hchar]
      have hsb : baseSeqByIndex (compute_sequence_numbers l)
          (((compute_sequence_numbers l)[k]).index) =
          some (rankBefore l k ((l[k]).direction)) :=
        baseSeqByIndex_getElem _ hndb k hbk _ hseq
      simp only [hlow, hsb, hseq]
      constructor
      · intro h
        simp [diffChanged] at h
      · rintro ⟨_, hge⟩
        omega
    · have hge : jd ≤ k := Nat.le_of_not_lt hcase
      have hbk1 : k + 1 < (compute_sequence_numbers l).length := by rw [hbl]; omega
      have hkl1 : k + 1 < l.length := by omega
      have hhigh := single_drop_high l jd hjd hnd hdrop k hge hkpost hbk1 hbjd
      obtain ⟨hidx, hdir, hdiff, hsame⟩ := hhigh
      have hchar1 := compute_sequence_numbers_getElem l (k + 1) hkl1 hbk1
      have hcharjd := compute_sequence_numbers_getElem l jd hjd hbjd
      have hseq1 : ((compute_sequence_numbers l)[k + 1]).seq_no =
          some (rankBefore l (k + 1) ((l[k + 1]).direction)) := by rw [hchar1]
      have hsb : baseSeqByIndex (compute_sequence_numbers l)
          (((compute_sequence_numbers l)[k + 1]).index) =
          some (rankBefore l (k + 1) ((l[k + 1]).direction)) :=
        baseSeqByIndex_getElem _ hndb (k + 1) hbk1 _ hseq1
      have hdir1 : ((compute_sequence_numbers l)[k + 1]).direction =
          (l[k + 1]).direction := by rw [hchar1]
      have hdirjd : ((compute_sequence_numbers l)[jd]).direction =
          (l[jd]).direction := by rw [hcharjd]
      by_cases hdireq : (l[k + 1]).direction = (l[jd]).direction
      · obtain ⟨rq, hrq, hge1, hpost⟩ := hsame (by rw [hdir1, hdirjd]; exact hdireq)
        have hrqv : rq = rankBefore l (k + 1) ((l[k + 1]).direction) := by
          rw [hseq1] at hrq
          exact (Option.some.injEq _ _ ▸ hrq).symm
        simp only [hidx, hsb, hpost, hrqv]
        constructor
        · intro _
          constructor
          · rw [hdir, hdir1]
            exact hdireq
          · exact hge
        · intro _
          simp only [diffChanged]
          have : rankBefore l (k + 1) ((l[k + 1]).direction) ≠
              rankBefore l (k + 1) ((l[k + 1]).direction) - 1 := by omega
          simpa using this
      · have hdiffseq := hdiff (by rw [hdir1, hdirjd]; exact hdireq)
        simp only [hidx, hsb, hdiffseq, hseq1]
        constructor
        · intro h
          simp [diffChanged] at h
        · rintro ⟨hd, _⟩
          rw [hdir, hdir1] at hd
          exact absurd hd hdireq

/-- Witness for C3: in the concrete single-drop run the surviving client
packet at post-drop position 1 is flagged as changed, matching the
direction-and-position criterion. -/
theorem C3_diff_reporter_witness :
    (({ index := 2, direction := Direction.clientToServer, msg_type := "DHINIT",
        seq_before := some 1, seq_after := some 0, changed := true } : DiffRow).changed = true ↔
      (({ index := 2, direction := Direction.clientToServer, msg_type := "DHINIT",
          seq_before := some 1, seq_after := some 0, changed := true } : DiffRow).direction =
        (tr0.get ⟨0, by decide⟩).direction ∧ 0 ≤ 1)) :=
  (C3_diff_reporter (compute_sequence_numbers tr0)
    (post_drop_trace tr0 [(tr0.get ⟨0, by decide⟩).index]) tr0 0 (by decide) (by decide)
    (by decide)).2 1
    { index := 2, direction := Direction.clientToServer, msg_type := "DHINIT",
      seq_before := some 1, seq_after := some 0, changed := true }
    (by decide)

/-- The notion of a list of integers used by the specification of the
selector: a YAML list value all of whose elements are integer scalars. -/
def isIntListB : YVal → Bool
  | YVal.ylist xs =>
    xs.all (fun v =>
      match v with
      | YVal.yint _ => true
      | _ => false)
  | _ => false

/-- A config whose active profile resolves drop_indices to a list of
numeric strings: not a list of integers, yet accepted by the selector. -/
def cfgStrList : List (String × YVal) :=
  [("profiles", YVal.ydict [("a", YVal.ydict [("drop_indices", YVal.ylist [YVal.ystr "3"])])]),
   ("active_profile", YVal.ystr "a")]

/-- Counterexample to C7 as stated: the resolved drop_indices value of
cfgStrList is not a list of integers, yet select_drop_indices does not fail
with InvalidDropList: it coerces the numeric string and succeeds. -/
theorem C7_counterexample_strlist :
    isIntListB (YVal.ylist [YVal.ystr "3"]) = false ∧
    ydictGet cfgStrList "profiles" =
      some (YVal.ydict [("a", YVal.ydict [("drop_indices", YVal.ylist [YVal.ystr "3"])])]) ∧
    ydictGet cfgStrList "active_profile" = some (YVal.ystr "a") ∧
    select_drop_indices cfgStrList =
      Except.ok ([3], YVal.ystr (defaultProfileDesc "a")) :=
  ⟨rfl, rfl, rfl, rfl⟩

/-- Claim C7 (amended): with a profiles mapping and a string active_profile,
the selector fails with ProfileNotFound when the active name has no entry,
and fails with InvalidDropList when the resolved drop_indices value is not
a list at all (in particular a string); a list whose elements are not
integers is instead coerced element by element and only an unconvertible
element fails (with a coercion error, not InvalidDropList). -/
theorem C7_selector_errors (config profiles : List (String × YVal)) (active : String)
    (hp : ydictGet config "profiles" = some (YVal.ydict profiles))
    (ha : ydictGet config "active_profile" = some (YVal.ystr active)) :
    (ydictGet profiles active = none →
      select_drop_indices config = Except.error (SelectError.profileNotFound active)) ∧
    (∀ profile : List (String × YVal),
      ydictGet profiles active = some (YVal.ydict profile) →
      ∀ v : YVal, ydictGet profile "drop_indices" = some v →
      (∀ xs : List YVal, v ≠ YVal.ylist xs) →
      select_drop_indices config = Except.error (SelectError.invalidDropList active)) := by
  constructor
  · intro hmiss
    simp only [select_drop_indices, hp, ha, hmiss]
  · intro profile hprof v hv hnl
    cases v with
    | ylist xs => exact absurd rfl (hnl xs)
    | ystr s => simp only [select_drop_indices, hp, ha, hprof, hv, Option.getD_some]
    | yint n => simp only [select_drop_indices, hp, ha, hprof, hv, Option.getD_some]
    | ybool b => simp only [select_drop_indices, hp, ha, hprof, hv, Option.getD_some]
    | ynull => simp only [select_drop_indices, hp, ha, hprof, hv, Option.getD_some]
    | ydict e => simp only [select_drop_indices, hp, ha, hprof, hv, Option.getD_some]

/-- A config whose active profile is missing from the profiles mapping. -/
def cfgMissingProfile : List (String × YVal) :=
  [("profiles", YVal.ydict [("a", YVal.ydict [])]),
   ("active_profile", YVal.ystr "missing")]

/-- A config whose active profile gives drop_indices as a string. -/
def cfgStrDrop : List (String × YVal) :=
  [("profiles", YVal.ydict [("a", YVal.ydict [("drop_indices", YVal.ystr "2,3")])]),
   ("active_profile", YVal.ystr "a")]

/-- Witness for the amended C7: a missing profile fails with
ProfileNotFound and a string drop_indices fails with InvalidDropList. -/
theorem C7_selector_errors_witness :
    select_drop_indices cfgMissingProfile =
      Except.error (SelectError.profileNotFound "missing") ∧
    select_drop_indices cfgStrDrop =
      Except.error (SelectError.invalidDropList "a") :=
  ⟨(C7_selector_errors cfgMissingProfile [("a", YVal.ydict [])] "missing" rfl rfl).1 rfl,
   (C7_selector_errors cfgStrDrop [("a", YVal.ydict [("drop_indices", YVal.ystr "2,3")])] "a"
      rfl rfl).2 [("drop_indices", YVal.ystr "2,3")] rfl (YVal.ystr "2,3") rfl
      (fun _ h => YVal.noConfusion h)⟩

/-- Claim C9: when the profiles key is present but active_profile is absent
or not a string, the selector raises no error and resolves through the
top-level drop_indices key, defaulting to the empty list when that key is
absent. -/
theorem C9_fallthrough (config : List (String × YVal))
    (hp : ∃ v, ydictGet config "profiles" = some v)
    (ha : ∀ v, ydictGet config "active_profile" = some v → ∀ s, v ≠ YVal.ystr s) :
    select_drop_indices config = selectTopLevel config ∧
    (ydictGet config "drop_indices" = none →
      select_drop_indices config = Except.ok ([], YVal.ystr "top-level drop_indices")) := by
  have hsel : select_drop_indices config = selectTopLevel config := by
    obtain ⟨v, hv⟩ := hp
    cases hav : ydictGet config "active_profile" with
    | none => cases v <;> simp [select_drop_indices, hv, hav]
    | some w =>
      cases w with
      | ystr s => exact absurd rfl (ha (YVal.ystr s) hav s)
      | yint n => cases v <;> simp [select_drop_indices, hv, hav]
      | ybool b => cases v <;> simp [select_drop_indices, hv, hav]
      | ynull => cases v <;> simp [select_drop_indices, hv, hav]
      | ylist xs => cases v <;> simp [select_drop_indices, hv, hav]
      | ydict e => cases v <;> simp [select_drop_indices, hv, hav]
  refine ⟨hsel, ?_⟩
  intro hmiss
  rw [hsel, selectTopLevel, hmiss]
  rfl

/-- A config with profiles present but a non-string active_profile and no
top-level drop_indices. -/
def cfgNoActive : List (String × YVal) :=
  [("profiles", YVal.ydict [("a", YVal.ydict [])]),
   ("active_profile", YVal.yint 1)]

/-- Witness for C9 on a concrete config. -/
theorem C9_fallthrough_witness :
    select_drop_indices cfgNoActive = Except.ok ([], YVal.ystr "top-level drop_indices") :=
  (C9_fallthrough cfgNoActive ⟨YVal.ydict [("a", YVal.ydict [])], rfl⟩
    (by
      intro v hv s heq
      have h1 : YVal.yint 1 = v := Option.some.inj hv
      rw [← h1] at heq
      cases heq)).2 rfl

/-- Claim C10: a selected profile that exists but lacks the drop_indices
key resolves to the empty index list with the profile description (or its
default), raising no error. -/
theorem C10_profile_default_empty (config profiles profile : List (String × YVal))
    (active : String)
    (hp : ydictGet config "profiles" = some (YVal.ydict profiles))
    (ha : ydictGet config "active_profile" = some (YVal.ystr active))
    (hprof : ydictGet profiles active = some (YVal.ydict profile))
    (hmiss : ydictGet profile "drop_indices" = none) :
    select_drop_indices config =
      Except.ok ([], (ydictGet profile "description").getD
        (YVal.ystr (defaultProfileDesc active))) := by
  simp only [select_drop_indices, hp, ha, hprof, hmiss, Option.getD_none]
  rfl

/-- A config whose active profile has a description but no drop_indices. -/
def cfgNoDropKey : List (String × YVal) :=
  [("profiles", YVal.ydict [("a", YVal.ydict [("description", YVal.ystr "demo profile")])]),
   ("active_profile", YVal.ystr "a")]

/-- Witness for C10 on a concrete config. -/
theorem C10_profile_default_empty_witness :
    select_drop_indices cfgNoDropKey = Except.ok ([], YVal.ystr "demo profile") :=
  C10_profile_default_empty cfgNoDropKey
    [("a", YVal.ydict [("description", YVal.ystr "demo profile")])]
    [("description", YVal.ystr "demo profile")] "a" rfl rfl rfl rfl

theorem clampK_le (r : Int) (n : Nat) : clampK r n ≤ n := by
  rw [clampK]
  have h1 : min r (n : Int) ≤ (n : Int) := min_le_right _ _
  have h2 : (0 : Int) ≤ (n : Int) := Int.natCast_nonneg n
  have h3 : max 0 (min r (n : Int)) ≤ (n : Int) := max_le h2 h1
  omega

theorem clampK_eq_zero (r : Int) (n : Nat) (h : r ≤ 0) : clampK r n = 0 := by
  rw [clampK]
  have h1 : min r (n : Int) ≤ 0 := le_trans (min_le_left _ _) h
  have h2 : max 0 (min r (n : Int)) = 0 := max_eq_left h1
  rw [h2]
  rfl

theorem clampK_eq_len (r : Int) (n : Nat) (h : (n : Int) ≤ r) : clampK r n = n := by
  rw [clampK, min_eq_right h, max_eq_right (Int.natCast_nonneg n)]
  exact Int.toNat_natCast n

/-- All packets of the assigner output have the direction of the matching
input packet, so a direction invariant on the input carries over. -/
theorem compute_sequence_numbers_forall_direction (L : List Packet) (d : Direction)
    (h : ∀ q ∈ L, q.direction = d) :
    ∀ p ∈ compute_sequence_numbers L, p.direction = d := by
  intro p hp
  have hm : p.direction ∈ (compute_sequence_numbers L).map Packet.direction :=
    List.mem_map_of_mem Packet.direction hp
  rw [compute_sequence_numbers_map_direction] at hm
  obtain ⟨q, hq, hqd⟩ := List.mem_map.mp hm
  rw [← hqd]
  exact h q hq

/-- Claim C8: random-drop selection (the draw abstracted by its contract:
k distinct members of the population) chooses k distinct client-originated
indices with k = clamp(requestedCount, 0, numberOfClientPackets), returns
them sorted ascending, clamps an oversized request to the number of client
packets and then drops every client packet, returns none (no error, nothing
dropped) when the clamp is 0, and its outcome is a function of the sampling
stream alone, hence reproducible under a fixed seed. -/
theorem C8_random_selection (sample : List Nat → Nat → List Nat)
    (l : List Packet) (random_drop : Int)
    (hnd : (l.map Packet.index).Nodup)
    (hsample : ∀ (pop : List Nat) (k : Nat), k ≤ pop.length → pop.Nodup →
      ((sample pop k).length = k ∧ (sample pop k).Nodup ∧ ∀ x ∈ sample pop k, x ∈ pop)) :
    (random_drop ≤ 0 → cmd_explore_core sample l random_drop = none) ∧
    (∀ (chosen : List Nat) (visible : List Packet),
      cmd_explore_core sample l random_drop = some (chosen, visible) →
      chosen.length = clampK random_drop (clientIndices (compute_sequence_numbers l)).length ∧
      List.Sorted (fun a b => a ≤ b) chosen ∧
      chosen.Nodup ∧
      (∀ x ∈ chosen, x ∈ clientIndices (compute_sequence_numbers l)) ∧
      (((clientIndices (compute_sequence_numbers l)).length : Int) ≤ random_drop →
        (∀ x ∈ clientIndices (compute_sequence_numbers l), x ∈ chosen) ∧
        ∀ p ∈ visible, p.direction = Direction.serverToClient)) ∧
    (∀ sample2 : List Nat → Nat → List Nat,
      (∀ pop k, sample pop k = sample2 pop k) →
      cmd_explore_core sample l random_drop = cmd_explore_core sample2 l random_drop) := by
  have hcnodup : (clientIndices (compute_sequence_numbers l)).Nodup := by
    apply List.Nodup.sublist
      (List.Sublist.map Packet.index (List.filter_sublist (compute_sequence_numbers l)))
    rw [compute_sequence_numbers_map_index]
    exact hnd
  refine ⟨?_, ?_, ?_⟩
  · intro hle
    simp only [cmd_explore_core]
    by_cases hempty : (clientIndices (compute_sequence_numbers l)).isEmpty
    · rw [if_pos hempty]
    · rw [if_neg hempty, if_pos (clampK_eq_zero random_drop _ hle)]
  · intro chosen visible hsome
    simp only [cmd_explore_core] at hsome
    by_cases hempty : (clientIndices (compute_sequence_numbers l)).isEmpty
    · rw [if_pos hempty] at hsome
      exact absurd hsome (by simp)
    · rw [if_neg hempty] at hsome
      by_cases hk0 : clampK random_drop (clientIndices (compute_sequence_numbers l)).length = 0
      · rw [if_pos hk0] at hsome
        exact absurd hsome (by simp)
      · rw [if_neg hk0] at hsome
        have hpair := Option.some.inj hsome
        rw [Prod.mk.injEq] at hpair
        obtain ⟨hch, hvis⟩ := hpair
        obtain ⟨hslen, hsnodup, hssub⟩ :=
          hsample (clientIndices (compute_sequence_numbers l))
            (clampK random_drop (clientIndices (compute_sequence_numbers l)).length)
            (clampK_le _ _) hcnodup
        have hperm : List.Perm
            (List.insertionSort (fun a b => a ≤ b)
              (sample (clientIndices (compute_sequence_numbers l))
                (clampK random_drop (clientIndices (compute_sequence_numbers l)).length)))
            (sample (clientIndices (compute_sequence_numbers l))
              (clampK random_drop (clientIndices (compute_sequence_numbers l)).length)) :=
          List.perm_insertionSort _ _
        refine ⟨?_, ?_, ?_, ?_, ?_⟩
        · rw [← hch, hperm.length_eq, hslen]
        · rw [← hch]
          exact List.sorted_insertionSort _ _
        · rw [← hch]
          exact hperm.symm.nodup hsnodup
        · intro x hx
          rw [← hch] at hx
          exact hssub x (hperm.mem_iff.mp hx)
        · intro hreq
          have hkeq : clampK random_drop (clientIndices (compute_sequence_numbers l)).length =
              (clientIndices (compute_sequence_numbers l)).length :=
            clampK_eq_len _ _ hreq
          have hsperm : List.Perm
              (sample (clientIndices (compute_sequence_numbers l))
                (clampK random_drop (clientIndices (compute_sequence_numbers l)).length))
              (clientIndices (compute_sequence_numbers l)) := by
            apply List.Subperm.perm_of_length_le (List.Nodup.subperm hsnodup hssub)
            rw [hslen, hkeq]
          have hallch : ∀ x ∈ clientIndices (compute_sequence_numbers l), x ∈ chosen := by
            intro x hx
            rw [← hch]
            exact hperm.mem_iff.mpr (hsperm.mem_iff.mpr hx)
          refine ⟨hallch, ?_⟩
          rw [← hvis]
          apply compute_sequence_numbers_forall_direction
          intro q hq
          rw [filter_visible_packets, List.mem_filter] at hq
          obtain ⟨hqatt, hqvis⟩ := hq
          rw [apply_drop_indices, List.mem_map] at hqatt
          obtain ⟨w, hw, hwq⟩ := hqatt
          cases hwd : w.direction with
          | serverToClient =>
            rw [← hwq]
            by_cases hwin : w.index ∈
                List.insertionSort (fun a b => a ≤ b)
                  (sample (clientIndices (compute_sequence_numbers l))
                    (clampK random_drop (clientIndices (compute_sequence_numbers l)).length))
            · rw [if_pos hwin]
              exact hwd
            · rw [if_neg hwin]
              exact hwd
          | clientToServer =>
            have hwci : w.index ∈ clientIndices (compute_sequence_numbers l) := by
              rw [clientIndices]
              apply List.mem_map_of_mem
              rw [List.mem_filter]
              exact ⟨hw, by simp [hwd]⟩
            have hwch : w.index ∈
                List.insertionSort (fun a b => a ≤ b)
                  (sample (clientIndices (compute_sequence_numbers l))
                    (clampK random_drop (clientIndices (compute_sequence_numbers l)).length)) := by
              rw [hch]
              exact hallch w.index hwci
            rw [← hwq, if_pos hwch] at hqvis
            simp at hqvis
  · intro sample2 hagree
    simp only [cmd_explore_core, hagree]

/-- Witness for C8: on the concrete trace (3 client packets) a request of 10
clamps to 3, the chosen indices are all the client indices, and the visible
post-drop trace holds only server-to-client packets. -/
theorem C8_random_selection_witness :
    (∀ x ∈ clientIndices (compute_sequence_numbers tr0), x ∈ [0, 2, 4]) ∧
    ∀ p ∈ [({ index := 1, direction := Direction.serverToClient, payload_len := 16,
              msg_type := "KEXINIT", seq_no := some 0, dropped := false } : Packet),
           { index := 3, direction := Direction.serverToClient, payload_len := 80,
              msg_type := "DHREPLY", seq_no := some 1, dropped := false }],
      p.direction = Direction.serverToClient :=
  ((C8_random_selection (fun pop k => pop.take k) tr0 10 (by decide)
    (by
      intro pop k hk hpn
      refine ⟨?_, ?_, ?_⟩
      · rw [List.length_take]
        exact Nat.min_eq_left hk
      · exact List.Nodup.sublist (List.take_sublist k pop) hpn
      · intro x hx
        exact (List.take_sublist k pop).subset hx)).2.1
    [0, 2, 4]
    [{ index := 1, direction := Direction.serverToClient, payload_len := 16,
       msg_type := "KEXINIT", seq_no := some 0, dropped := false },
     { index := 3, direction := Direction.serverToClient, payload_len := 80,
       msg_type := "DHREPLY", seq_no := some 1, dropped := false }]
    (by decide)).2.2.2.2 (by decide)

end Terrapin
